import Mathlib

/-!
Shallow embedding of `src/email_reader.py` (Email Reader & Attachment
Extractor).  The embedding covers the `.eml` normalizer `parse_eml`, the
`.msg` normalizer `parse_msg`, the attachment-saving logic of
`EmailReaderApp` (`extract_attachments` / `save_selected_attachment`),
and the filename sanitizer `_sanitize_filename`, together with theorems
checking the specification's claims about them.

Modelling conventions:
* machine text is `String`, raw bytes are `List Nat`;
* a MIME part as yielded by `msg.walk()` is a `Part` carrying the values
  the Python code reads off it (`get_content_disposition()`,
  `get_content_type()`, `get_filename()`, `get_payload(decode=True)`,
  `get_content()`);
* Python `dict` built from a list of key/value pairs is an association
  list with first-insertion position and last-write-wins values
  (`dictInsert`);
* Python truthiness of optional strings / byte buffers is made explicit
  (`pyTruthy`, `bytesTruthy`);
* the GUI is out of scope; `open_email` is modelled as a pure transition
  on the fields of the app object that it mutates.
-/

set_option maxHeartbeats 1000000

namespace EmailReader

abbrev Bytes := List Nat

/-- One MIME part, as seen by the loop body in `parse_eml`
(`src/email_reader.py` lines 47-70): the content disposition, content
type, filename, decoded payload (`None` for multipart containers) and
decoded textual content. -/
structure Part where
  cdis : Option String
  ctype : String
  filename : Option String
  payload : Option Bytes
  content : String

/-- The body structure of a parsed message: either multipart (with the
parts listed in `msg.walk()` document order) or a single part. -/
inductive MessageContent where
  | multipart (parts : List Part)
  | single (ctype : String) (content : String)

/-- A parsed `.eml` message: header fields in file order (`msg.items()`)
plus the body structure. -/
structure EmlMessage where
  items : List (String × String)
  content : MessageContent

/-- The attachment dict built at `src/email_reader.py` lines 54-58. -/
structure EmlAttachment where
  filename : String
  content_type : String
  payload : Option Bytes

/-- Python truthiness of `Optional[str]`: `None` and `""` are falsy. -/
def pyTruthy : Option String → Bool
  | none => false
  | some s => !s.isEmpty

/-- The classification test at line 52:
`if cdis == "attachment" or filename:`. -/
def isAttachmentPart (p : Part) : Bool :=
  decide (p.cdis = some "attachment") || pyTruthy p.filename

/-- The attachment record appended at lines 54-58, with the
`filename or "attachment"` default. -/
def attachmentOf (p : Part) : EmlAttachment :=
  { filename :=
      match p.filename with
      | some s => if s.isEmpty then "attachment" else s
      | none => "attachment"
    content_type := p.ctype
    payload := p.payload }

/-- The mutable loop state of `parse_eml`'s multipart walk. -/
structure BodyAcc where
  body_text : String
  body_html : String
  attachments : List EmlAttachment

/-- One iteration of the `for part in msg.walk():` loop
(`src/email_reader.py` lines 47-70). -/
def walkStep (acc : BodyAcc) (p : Part) : BodyAcc :=
  if isAttachmentPart p then
    { acc with attachments := acc.attachments ++ [attachmentOf p] }
  else if p.ctype = "text/plain" ∧ acc.body_text = "" then
    { acc with body_text := p.content }
  else if p.ctype = "text/html" ∧ acc.body_html = "" then
    { acc with body_html := p.content }
  else acc

/-- Insertion into a Python `dict` viewed as an association list with
no duplicate keys: an existing key keeps its position and gets the new
value, a new key is appended.  `dict(pairs)` inserts the pairs in order
starting from the empty dict. -/
def dictInsert (d : List (String × String)) (kv : String × String) : List (String × String) :=
  match d with
  | [] => [kv]
  | q :: rest => if q.1 = kv.1 then (q.1, kv.2) :: rest else q :: dictInsert rest kv

/-- `dict(msg.items())` at `src/email_reader.py` line 40. -/
def dictOfItems (items : List (String × String)) : List (String × String) :=
  items.foldl dictInsert []

/-- Key lookup in the association-list model of a Python dict. -/
def dictFind (d : List (String × String)) (k : String) : Option String :=
  (d.find? (fun p => decide (p.1 = k))).map (fun p => p.2)

/-- The value of the last pair with key `k`, in list order. -/
def lastValue (k : String) : List (String × String) → Option String
  | [] => none
  | kv :: rest =>
    match lastValue k rest with
    | some v => some v
    | none => if kv.1 = k then some kv.2 else none

/-- The four-part result of `parse_eml`
(`headers, body_text, body_html, attachments`). -/
structure EmlRecord where
  headers : List (String × String)
  body_text : String
  body_html : String
  attachments : List EmlAttachment

/-- `parse_eml` (`src/email_reader.py` lines 31-78) on an already
MIME-decoded message. -/
def parse_eml (m : EmlMessage) : EmlRecord :=
  let headers := dictOfItems m.items
  match m.content with
  | .multipart parts =>
      let r := parts.foldl walkStep { body_text := "", body_html := "", attachments := [] }
      { headers := headers, body_text := r.body_text, body_html := r.body_html,
        attachments := r.attachments }
  | .single ctype content =>
      if ctype = "text/plain" then
        { headers := headers, body_text := content, body_html := "", attachments := [] }
      else if ctype = "text/html" then
        { headers := headers, body_text := "", body_html := content, attachments := [] }
      else
        { headers := headers, body_text := "", body_html := "", attachments := [] }

/-- Outcome of calling a Python method that can raise: normal return,
`TypeError`, or any other exception. -/
inductive CallResult where
  | ok
  | typeError
  | otherError
deriving DecidableEq

/-- An `extract_msg` attachment object as probed by the save logic
(`src/email_reader.py` lines 315-336 and 371-390): whether it has a
`save` attribute, what `save(customPath=...)` and `save(path)` would do,
and its `data` / `payload` attributes (absent = `None`). -/
structure MsgHandle where
  hasSave : Bool
  saveCustom : CallResult
  saveSimple : CallResult
  data : Option Bytes
  payload : Option Bytes

/-- Python truthiness of `Optional[bytes]`: `None` and `b""` are falsy. -/
def bytesTruthy : Option Bytes → Bool
  | none => false
  | some b => !b.isEmpty

/-- `getattr(obj, "data", None) or getattr(obj, "payload", None)`
followed by the `if data:` truthiness test: the first truthy buffer, if
any. -/
def dataOrPayload (h : MsgHandle) : Option Bytes :=
  if bytesTruthy h.data then h.data
  else if bytesTruthy h.payload then h.payload
  else none

/-- How one `.msg` attachment ends up persisted (or not). -/
inductive SaveOutcome where
  | savedViaCustom
  | savedViaSimple
  | savedViaBuffer
  | unsavable
deriving DecidableEq

/-- An attachment object exposed by the `.msg` decoder, as read by
`parse_msg` (`src/email_reader.py` lines 102-104). -/
structure MsgAttachmentObj where
  longFilename : Option String
  filename : Option String
  handle : MsgHandle

/-- The fields `parse_msg` reads off the decoder's message object
(`src/email_reader.py` lines 91-104); `body` / `htmlBody` may be `None`. -/
structure MsgFile where
  sender : String
  «to» : String
  subject : String
  date : String
  body : Option String
  htmlBody : Option String
  attachments : List MsgAttachmentObj

/-- `getattr(att, "longFilename", None) or getattr(att, "filename", None)
or "attachment"` (line 103). -/
def msgAttachmentName (a : MsgAttachmentObj) : String :=
  if pyTruthy a.longFilename then a.longFilename.getD ""
  else if pyTruthy a.filename then a.filename.getD ""
  else "attachment"

/-- Error raised by `parse_msg` when `extract_msg` is not installed
(`src/email_reader.py` lines 88-89). -/
inductive MsgError where
  | unsupportedFormat
deriving DecidableEq

/-- The four-part result of `parse_msg`. -/
structure MsgRecord where
  headers : List (String × String)
  body_text : String
  body_html : String
  attachments : List (String × MsgAttachmentObj)

/-- `parse_msg` (`src/email_reader.py` lines 81-106).  `available`
models whether the optional `extract_msg` import succeeded; the file is
only opened and read in the available branch. -/
def parse_msg (available : Bool) (m : MsgFile) : Except MsgError MsgRecord :=
  if !available then .error .unsupportedFormat
  else .ok
    { headers := [("From", m.sender), ("To", m.«to»), ("Subject", m.subject), ("Date", m.date)]
      body_text := m.body.getD ""
      body_html := m.htmlBody.getD ""
      attachments := m.attachments.map (fun a => (msgAttachmentName a, a)) }

/-- The record kept in `self.current_meta` after a successful open. -/
inductive LoadedMeta where
  | eml (r : EmlRecord)
  | msg (r : MsgRecord)

/-- The app-object fields mutated by `open_email`. -/
structure AppState where
  current_path : Option String
  current_meta : Option LoadedMeta

namespace EmailReaderApp

/-- `EmailReaderApp.open_email` (`src/email_reader.py` lines 182-214) as
a state transition: `current_path` is assigned first; then the
extension dispatch either replaces `current_meta` with a freshly parsed
record, or (missing `.msg` decoder, or a parse error caught by the
`except` block) leaves `current_meta` unchanged. -/
def open_email (st : AppState) (path : String) (ext : String) (available : Bool)
    (emlFile : EmlMessage) (msgFile : MsgFile) : AppState :=
  let st1 : AppState := { st with current_path := some path }
  if ext = ".eml" then
    { st1 with current_meta := some (.eml (parse_eml emlFile)) }
  else if ext = ".msg" then
    if available then
      match parse_msg available msgFile with
      | .ok r => { st1 with current_meta := some (.msg r) }
      | .error _ => st1
    else st1
  else
    { st1 with current_meta := some (.eml (parse_eml emlFile)) }

/-- The cascade used to persist one `.msg` attachment, shared verbatim
by `extract_attachments` (lines 315-336) and `save_selected_attachment`
(lines 371-390): try `obj.save(customPath=...)`; on `TypeError` retry
`obj.save(path)`; if that raises too, fall back to the first truthy
`data` / `payload` buffer; without a `save` attribute go directly to the
buffer; with no buffer either, the attachment is reported unsavable
(warning dialog, re-raise, or `RuntimeError`). -/
def saveMsgAttachment (h : MsgHandle) : SaveOutcome :=
  if h.hasSave then
    match h.saveCustom with
    | .ok => .savedViaCustom
    | .typeError =>
        match h.saveSimple with
        | .ok => .savedViaSimple
        | _ =>
            match dataOrPayload h with
            | some _ => .savedViaBuffer
            | none => .unsavable
    | .otherError => .unsavable
  else
    match dataOrPayload h with
    | some _ => .savedViaBuffer
    | none => .unsavable

/-- Characters stripped by `_sanitize_filename`:
`"\\/:*?\"<>|"` (`src/email_reader.py` line 408). -/
def illegalFilenameChars : List Char := ['\\', '/', ':', '*', '?', '"', '<', '>', '|']

/-- The character filter of `_sanitize_filename`:
`c not in "\\/:*?\"<>|"`. -/
def keepChar (c : Char) : Bool := !illegalFilenameChars.contains c

/-- ASCII whitespace as removed by Python's `str.strip()`. -/
def pyIsSpace (c : Char) : Bool :=
  c == ' ' || c == '\t' || c == '\n' || c == '\r' || c == '\x0b' || c == '\x0c'

/-- Trailing-whitespace removal, i.e. `str.strip()`'s right half. -/
def rstripList (l : List Char) : List Char :=
  (l.reverse.dropWhile pyIsSpace).reverse

/-- `str.strip()` on a character list: drop leading and trailing
whitespace. -/
def stripList (l : List Char) : List Char :=
  rstripList (l.dropWhile pyIsSpace)

/-- `EmailReaderApp._sanitize_filename` (`src/email_reader.py` lines
406-408):
`"".join(c for c in name if c not in "\\/:*?\"<>|").strip() or "attachment"`. -/
def _sanitize_filename (name : String) : String :=
  let stripped := stripList (name.data.filter keepChar)
  if stripped.isEmpty then "attachment" else String.mk stripped

/-- The filesystem as a partial map from paths to byte contents. -/
abbrev FileSystem := String → Option Bytes

/-- `open(path, "wb")` followed by `write(content)`. -/
def writeFile (fs : FileSystem) (path : String) (content : Bytes) : FileSystem :=
  fun q => if q = path then some content else fs q

/-- `fname = a.get("filename") or f"attachment_{saved}"`
(`src/email_reader.py` line 303). -/
def emlAttachmentName (a : EmlAttachment) (saved : Nat) : String :=
  if a.filename.isEmpty then "attachment_" ++ toString saved else a.filename

/-- `os.path.join(dest, self._sanitize_filename(fname))`
(lines 305-306). -/
def emlDestPath (dest : String) (a : EmlAttachment) (saved : Nat) : String :=
  dest ++ "/" ++ _sanitize_filename (emlAttachmentName a saved)

/-- The `eml` branch of the save loop in `extract_attachments`
(`src/email_reader.py` lines 302-309): write
`a.get("payload") or b""` to the sanitized destination and increment
the saved counter. -/
def save_eml_attachment (fs : FileSystem) (dest : String) (a : EmlAttachment) (saved : Nat) :
    FileSystem × Nat :=
  (writeFile fs (emlDestPath dest a saved) (a.payload.getD []), saved + 1)

/-- One iteration of the `msg`-type save-all loop
(`src/email_reader.py` lines 300-346): the whole item is wrapped in
`try/except`, so a failed item only emits a warning naming it and the
loop moves on; a successful item bumps the saved counter. -/
def msgSaveStep (acc : Nat × List String) (it : String × MsgHandle) : Nat × List String :=
  if saveMsgAttachment it.2 = .unsavable then (acc.1, acc.2 ++ [it.1])
  else (acc.1 + 1, acc.2)

/-- `extract_attachments` batch loop over `msg` attachments: returns the
final saved count and the list of warned-about (failed) attachment
names, in order. -/
def extract_attachments_msg (items : List (String × MsgHandle)) : Nat × List String :=
  items.foldl msgSaveStep (0, [])

end EmailReaderApp

/-- Whether a walked part is one the body-capture branches would accept
for content type `ct`, with non-empty decoded content. -/
def bodyCandidate (ct : String) (p : Part) : Bool :=
  !isAttachmentPart p && decide (p.ctype = ct) && decide (p.content ≠ "")

/-- The decoded content of the first `bodyCandidate ct` part, or `""`. -/
def firstBodyContent (ct : String) (parts : List Part) : String :=
  match parts.find? (bodyCandidate ct) with
  | some p => p.content
  | none => ""

/-- A non-attachment `text/plain` part whose decoded content is empty. -/
def emptyPlainPart : Part :=
  { cdis := none, ctype := "text/plain", filename := none, payload := none, content := "" }

/-- A non-attachment `text/plain` part with content `"hello"`. -/
def helloPlainPart : Part :=
  { cdis := none, ctype := "text/plain", filename := none, payload := none, content := "hello" }

/-! ### Helper lemmas about the multipart walk -/

theorem walkStep_attachments (acc : BodyAcc) (p : Part) :
    (walkStep acc p).attachments
      = acc.attachments ++ (if isAttachmentPart p then [attachmentOf p] else []) := by
  unfold walkStep
  split_ifs <;> simp_all

theorem walkStep_body_text (acc : BodyAcc) (p : Part) :
    (walkStep acc p).body_text
      = if isAttachmentPart p = false ∧ p.ctype = "text/plain" ∧ acc.body_text = ""
        then p.content else acc.body_text := by
  unfold walkStep
  split_ifs <;> simp_all

theorem walkStep_body_html (acc : BodyAcc) (p : Part) :
    (walkStep acc p).body_html
      = if isAttachmentPart p = false ∧ p.ctype = "text/html" ∧ acc.body_html = ""
        then p.content else acc.body_html := by
  have hne : ("text/plain" : String) ≠ "text/html" := by decide
  unfold walkStep
  split_ifs <;> simp_all


theorem firstBodyContent_cons (ct : String) (p : Part) (rest : List Part) :
    firstBodyContent ct (p :: rest)
      = if bodyCandidate ct p then p.content else firstBodyContent ct rest := by
  by_cases h : bodyCandidate ct p <;> simp [firstBodyContent, List.find?_cons, h]

theorem foldl_walkStep_attachments (parts : List Part) :
    ∀ acc : BodyAcc, (parts.foldl walkStep acc).attachments
      = acc.attachments ++ (parts.filter isAttachmentPart).map attachmentOf := by
  induction parts with
  | nil => intro acc; simp
  | cons p rest ih =>
    intro acc
    rw [List.foldl_cons, ih, walkStep_attachments, List.filter_cons]
    by_cases h : isAttachmentPart p <;> simp [h]

theorem foldl_walkStep_body_text (parts : List Part) :
    ∀ acc : BodyAcc, (parts.foldl walkStep acc).body_text
      = if acc.body_text = "" then firstBodyContent "text/plain" parts
        else acc.body_text := by
  induction parts with
  | nil =>
    intro acc
    by_cases h : acc.body_text = "" <;> simp [firstBodyContent, h]
  | cons p rest ih =>
    intro acc
    rw [List.foldl_cons, ih, walkStep_body_text, firstBodyContent_cons]
    by_cases hA : isAttachmentPart p
    · have hb : bodyCandidate "text/plain" p = false := by simp [bodyCandidate, hA]
      simp [hA, hb]
    · by_cases hT : p.ctype = "text/plain"
      · by_cases hB : acc.body_text = ""
        · by_cases hC : p.content = ""
          · have hb : bodyCandidate "text/plain" p = false := by simp [bodyCandidate, hC]
            simp [hA, hT, hB, hC, hb]
          · have hb : bodyCandidate "text/plain" p = true := by
              simp [bodyCandidate, hA, hT, hC]
            simp [hA, hT, hB, hC, hb]
        · simp [hA, hT, hB]
      · have hb : bodyCandidate "text/plain" p = false := by simp [bodyCandidate, hT]
        simp [hA, hT, hb]

theorem foldl_walkStep_body_html (parts : List Part) :
    ∀ acc : BodyAcc, (parts.foldl walkStep acc).body_html
      = if acc.body_html = "" then firstBodyContent "text/html" parts
        else acc.body_html := by
  induction parts with
  | nil =>
    intro acc
    by_cases h : acc.body_html = "" <;> simp [firstBodyContent, h]
  | cons p rest ih =>
    intro acc
    rw [List.foldl_cons, ih, walkStep_body_html, firstBodyContent_cons]
    by_cases hA : isAttachmentPart p
    · have hb : bodyCandidate "text/html" p = false := by simp [bodyCandidate, hA]
      simp [hA, hb]
    · by_cases hT : p.ctype = "text/html"
      · by_cases hB : acc.body_html = ""
        · by_cases hC : p.content = ""
          · have hb : bodyCandidate "text/html" p = false := by simp [bodyCandidate, hC]
            simp [hA, hT, hB, hC, hb]
          · have hb : bodyCandidate "text/html" p = true := by
              simp [bodyCandidate, hA, hT, hC]
            simp [hA, hT, hB, hC, hb]
        · simp [hA, hT, hB]
      · have hb : bodyCandidate "text/html" p = false := by simp [bodyCandidate, hT]
        simp [hA, hT, hb]

theorem firstBodyContent_filter (ct : String) : ∀ parts : List Part,
    firstBodyContent ct (parts.filter (fun p => !isAttachmentPart p))
      = firstBodyContent ct parts
  | [] => rfl
  | p :: rest => by
    rw [List.filter_cons]
    by_cases hA : isAttachmentPart p
    · have hb : bodyCandidate ct p = false := by simp [bodyCandidate, hA]
      simp [hA, firstBodyContent_cons, hb, firstBodyContent_filter ct rest]
    · simp [hA, firstBodyContent_cons, firstBodyContent_filter ct rest]

theorem filter_isAttachment_eq (parts : List Part) :
    parts.filter (fun p => decide (p.cdis = some "attachment") || pyTruthy p.filename)
      = parts.filter isAttachmentPart := rfl

/-! ### Claim theorems about `parse_eml` -/

/-- C1: in `parse_eml`, a walked part of a multipart message is recorded
as an attachment (filename defaulting to `"attachment"`, with its
content type and decoded payload) exactly when its content disposition
is `attachment` or it carries a (truthy) filename; such parts never
contribute to `body_text` or `body_html`, which are computed from the
non-attachment parts alone. -/
theorem C1_attachment_classification (items : List (String × String)) (parts : List Part) :
    (parse_eml ⟨items, .multipart parts⟩).attachments
      = (parts.filter (fun p => decide (p.cdis = some "attachment") || pyTruthy p.filename)).map
          attachmentOf
    ∧ (parse_eml ⟨items, .multipart parts⟩).body_text
      = (parse_eml ⟨items, .multipart (parts.filter (fun p => !isAttachmentPart p))⟩).body_text
    ∧ (parse_eml ⟨items, .multipart parts⟩).body_html
      = (parse_eml ⟨items, .multipart (parts.filter (fun p => !isAttachmentPart p))⟩).body_html := by
  rw [filter_isAttachment_eq]
  refine ⟨?_, ?_, ?_⟩
  · simp [parse_eml, foldl_walkStep_attachments]
  · simp [parse_eml, foldl_walkStep_body_text, firstBodyContent_filter]
  · simp [parse_eml, foldl_walkStep_body_html, firstBodyContent_filter]


/-- C2 counterexample: a multipart message with two non-attachment
`text/plain` parts in which the first part's decoded content is empty.
The code's `not body_text` test still sees an empty body after the first
part, so the second `text/plain` part is not discarded: `body_text` ends
up equal to the second part's content, not the first's. -/
theorem C2_counterexample :
    isAttachmentPart emptyPlainPart = false
    ∧ isAttachmentPart helloPlainPart = false
    ∧ emptyPlainPart.ctype = "text/plain"
    ∧ helloPlainPart.ctype = "text/plain"
    ∧ (parse_eml ⟨[], .multipart [emptyPlainPart, helloPlainPart]⟩).body_text
        = helloPlainPart.content
    ∧ (parse_eml ⟨[], .multipart [emptyPlainPart, helloPlainPart]⟩).body_text
        ≠ emptyPlainPart.content := by
  refine ⟨rfl, rfl, rfl, rfl, rfl, ?_⟩
  decide

/-- C2 (amended): `body_text` is the decoded content of the first
non-attachment `text/plain` part whose decoded content is non-empty (or
`""` if there is none); every `text/plain` part after that one is
discarded, while earlier `text/plain` parts necessarily had empty
content.  Symmetrically for `body_html` with `text/html`. -/
theorem C2_first_nonempty_body (items : List (String × String)) (parts : List Part) :
    (parse_eml ⟨items, .multipart parts⟩).body_text = firstBodyContent "text/plain" parts
    ∧ (parse_eml ⟨items, .multipart parts⟩).body_html = firstBodyContent "text/html" parts := by
  constructor
  · simp [parse_eml, foldl_walkStep_body_text]
  · simp [parse_eml, foldl_walkStep_body_html]

/-- C7: a non-multipart message of content type `text/plain` yields
`body_text` equal to its decoded content with `body_html` empty, and
symmetrically for `text/html`; in both cases the attachment list is
empty. -/
theorem C7_single_part (items : List (String × String)) (content : String) :
    parse_eml ⟨items, .single "text/plain" content⟩
      = { headers := dictOfItems items, body_text := content, body_html := "",
          attachments := [] }
    ∧ parse_eml ⟨items, .single "text/html" content⟩
      = { headers := dictOfItems items, body_text := "", body_html := content,
          attachments := [] } := by
  constructor <;> rfl

/-! ### Claim theorems about `parse_msg` and the app save logic -/

/-- C4: with the `.msg` decoder unavailable, `parse_msg` fails with the
unsupported-format error, its result does not depend on the file (the
file is never read), and `open_email` on a `.msg` path leaves the
previously loaded record `current_meta` unchanged. -/
theorem C4_msg_decoder_unavailable (st : AppState) (path : String) (m m2 : MsgFile)
    (emlFile : EmlMessage) :
    parse_msg false m = .error .unsupportedFormat
    ∧ parse_msg false m = parse_msg false m2
    ∧ (EmailReaderApp.open_email st path ".msg" false emlFile m).current_meta
        = st.current_meta := by
  exact ⟨rfl, rfl, rfl⟩

/-- C3: the `.msg` attachment persister first calls
`save(customPath=...)`; on `TypeError` it retries `save(path)`; with no
`save` attribute it falls back to the first truthy `data` / `payload`
buffer; and it reports the attachment unsavable exactly when none of
those guarded paths goes through. -/
theorem C3_msg_save_cascade (h : MsgHandle) :
    (h.hasSave = true → h.saveCustom = .ok →
        EmailReaderApp.saveMsgAttachment h = .savedViaCustom)
    ∧ (h.hasSave = true → h.saveCustom = .typeError → h.saveSimple = .ok →
        EmailReaderApp.saveMsgAttachment h = .savedViaSimple)
    ∧ (h.hasSave = true → h.saveCustom = .typeError → h.saveSimple ≠ .ok →
        (dataOrPayload h).isSome = true →
        EmailReaderApp.saveMsgAttachment h = .savedViaBuffer)
    ∧ (h.hasSave = false → (dataOrPayload h).isSome = true →
        EmailReaderApp.saveMsgAttachment h = .savedViaBuffer)
    ∧ (EmailReaderApp.saveMsgAttachment h = .unsavable ↔
        ¬ ((h.hasSave = true ∧ h.saveCustom = .ok)
          ∨ (h.hasSave = true ∧ h.saveCustom = .typeError ∧ h.saveSimple = .ok)
          ∨ (h.hasSave = true ∧ h.saveCustom = .typeError ∧ h.saveSimple ≠ .ok
              ∧ (dataOrPayload h).isSome = true)
          ∨ (h.hasSave = false ∧ (dataOrPayload h).isSome = true))) := by
  obtain ⟨hs, sc, ss, dt, pl⟩ := h
  cases hdp : dataOrPayload ⟨hs, sc, ss, dt, pl⟩ <;>
    cases hs <;> cases sc <;> cases ss <;>
      simp [EmailReaderApp.saveMsgAttachment, hdp]

/-- A handle whose `save(customPath=...)` raises `TypeError` but whose
`save(path)` succeeds. -/
def retryHandle : MsgHandle :=
  { hasSave := true, saveCustom := .typeError, saveSimple := .ok,
    data := none, payload := none }

/-- A handle with no `save` attribute and a non-empty `payload` buffer. -/
def bufferHandle : MsgHandle :=
  { hasSave := false, saveCustom := .ok, saveSimple := .ok,
    data := none, payload := some [1, 2] }

/-- Witness for C3 at concrete handles: the `TypeError` retry path and
the raw-buffer fallback path. -/
theorem C3_msg_save_cascade_witness :
    EmailReaderApp.saveMsgAttachment retryHandle = .savedViaSimple
    ∧ EmailReaderApp.saveMsgAttachment bufferHandle = .savedViaBuffer :=
  ⟨(C3_msg_save_cascade retryHandle).2.1 rfl rfl rfl,
   (C3_msg_save_cascade bufferHandle).2.2.2.1 rfl (by decide)⟩

/-- C8: saving an `eml` attachment whose payload is absent (`None`) or
zero-length writes an existing, empty destination file and increments
the saved counter (counts as a success). -/
theorem C8_zero_length_eml_attachment (fs : EmailReaderApp.FileSystem)
    (dest fname ct : String) (saved : Nat) :
    (EmailReaderApp.save_eml_attachment fs dest ⟨fname, ct, none⟩ saved).1
        (EmailReaderApp.emlDestPath dest ⟨fname, ct, none⟩ saved) = some []
    ∧ (EmailReaderApp.save_eml_attachment fs dest ⟨fname, ct, none⟩ saved).2 = saved + 1
    ∧ (EmailReaderApp.save_eml_attachment fs dest ⟨fname, ct, some []⟩ saved).1
        (EmailReaderApp.emlDestPath dest ⟨fname, ct, some []⟩ saved) = some []
    ∧ (EmailReaderApp.save_eml_attachment fs dest ⟨fname, ct, some []⟩ saved).2 = saved + 1 := by
  refine ⟨?_, rfl, ?_, rfl⟩ <;>
    simp [EmailReaderApp.save_eml_attachment, EmailReaderApp.writeFile]

theorem countP_not_add_countP {α : Type} (p : α → Bool) : ∀ l : List α,
    l.countP (fun a => !p a) + l.countP p = l.length
  | [] => rfl
  | a :: t => by
    have ih := countP_not_add_countP p t
    rw [List.countP_cons, List.countP_cons]
    cases h : p a <;> simp [h] <;> omega

theorem foldl_msgSaveStep : ∀ (items : List (String × MsgHandle)) (n : Nat) (w : List String),
    items.foldl EmailReaderApp.msgSaveStep (n, w)
      = (n + items.countP
            (fun it => !decide (EmailReaderApp.saveMsgAttachment it.2 = .unsavable)),
         w ++ (items.filter
            (fun it => decide (EmailReaderApp.saveMsgAttachment it.2 = .unsavable))).map
              Prod.fst)
  | [], n, w => by simp
  | it :: rest, n, w => by
    rw [List.foldl_cons]
    by_cases h : EmailReaderApp.saveMsgAttachment it.2 = .unsavable
    · simp [EmailReaderApp.msgSaveStep, h, foldl_msgSaveStep rest, List.countP_cons,
        List.filter_cons]
    · simp [EmailReaderApp.msgSaveStep, h, foldl_msgSaveStep rest, List.countP_cons,
        List.filter_cons, Nat.add_comm, Nat.add_assoc, Nat.add_left_comm]

/-- C6: batch-saving all attachments never aborts on a failed item:
every item is processed, the saved count is exactly the number of items
whose save succeeds, each failed item is reported (warned about)
individually in order, and successes plus failures account for the
whole batch. -/
theorem C6_batch_save_isolation (items : List (String × MsgHandle)) :
    (EmailReaderApp.extract_attachments_msg items).1
        = items.countP
            (fun it => !decide (EmailReaderApp.saveMsgAttachment it.2 = .unsavable))
    ∧ (EmailReaderApp.extract_attachments_msg items).2
        = (items.filter
            (fun it => decide (EmailReaderApp.saveMsgAttachment it.2 = .unsavable))).map
              Prod.fst
    ∧ (EmailReaderApp.extract_attachments_msg items).1
        + ((EmailReaderApp.extract_attachments_msg items).2).length = items.length := by
  have h := foldl_msgSaveStep items 0 []
  refine ⟨?_, ?_, ?_⟩
  · rw [EmailReaderApp.extract_attachments_msg, h]; simp
  · rw [EmailReaderApp.extract_attachments_msg, h]; simp
  · rw [EmailReaderApp.extract_attachments_msg, h]
    simp only [Nat.zero_add, List.nil_append, List.length_map,
      ← List.countP_eq_length_filter]
    exact countP_not_add_countP _ items

/-! ### Helper lemmas about `str.strip()` and the filename sanitizer -/

theorem mem_dropWhile {p : Char → Bool} {c : Char} : ∀ {l : List Char},
    c ∈ l.dropWhile p → c ∈ l := by
  intro l
  induction l with
  | nil => intro h; simp at h
  | cons a t ih =>
    intro h
    by_cases hp : p a
    · rw [List.dropWhile_cons_of_pos hp] at h
      exact List.mem_cons_of_mem a (ih h)
    · rwa [List.dropWhile_cons_of_neg hp] at h

theorem dropWhile_dropWhile (p : Char → Bool) : ∀ l : List Char,
    (l.dropWhile p).dropWhile p = l.dropWhile p
  | [] => rfl
  | a :: t => by
    by_cases hp : p a
    · rw [List.dropWhile_cons_of_pos hp]
      exact dropWhile_dropWhile p t
    · rw [List.dropWhile_cons_of_neg hp, List.dropWhile_cons_of_neg hp]

theorem dropWhile_append_split (p : Char → Bool) : ∀ (l₁ l₂ : List Char),
    (l₁ ++ l₂).dropWhile p
      = if (l₁.dropWhile p).isEmpty then l₂.dropWhile p else l₁.dropWhile p ++ l₂
  | [], l₂ => by simp
  | a :: t, l₂ => by
    by_cases hp : p a
    · rw [List.cons_append, List.dropWhile_cons_of_pos hp, List.dropWhile_cons_of_pos hp]
      exact dropWhile_append_split p t l₂
    · rw [List.cons_append, List.dropWhile_cons_of_neg hp, List.dropWhile_cons_of_neg hp]
      simp

theorem dropWhile_rstripList {m : List Char}
    (hm : m.dropWhile EmailReaderApp.pyIsSpace = m) :
    (EmailReaderApp.rstripList m).dropWhile EmailReaderApp.pyIsSpace
      = EmailReaderApp.rstripList m := by
  cases m with
  | nil => rfl
  | cons a t =>
    have ha : EmailReaderApp.pyIsSpace a = false := by
      by_cases h : EmailReaderApp.pyIsSpace a
      · rw [List.dropWhile_cons_of_pos h] at hm
        have hlen := congrArg List.length hm
        have hle : (t.dropWhile EmailReaderApp.pyIsSpace).length ≤ t.length :=
          (List.dropWhile_sublist _).length_le
        simp at hlen
        omega
      · simpa using h
    have h1 : List.dropWhile EmailReaderApp.pyIsSpace [a] = [a] :=
      List.dropWhile_cons_of_neg (by simp [ha])
    unfold EmailReaderApp.rstripList
    rw [List.reverse_cons, dropWhile_append_split]
    by_cases he : ((t.reverse.dropWhile EmailReaderApp.pyIsSpace).isEmpty : Prop)
    · rw [if_pos he, h1, List.reverse_singleton, h1]
    · rw [if_neg he, List.reverse_append, List.reverse_singleton, List.singleton_append,
        List.dropWhile_cons_of_neg (by simp [ha])]

theorem rstripList_rstripList (l : List Char) :
    EmailReaderApp.rstripList (EmailReaderApp.rstripList l)
      = EmailReaderApp.rstripList l := by
  unfold EmailReaderApp.rstripList
  rw [List.reverse_reverse, dropWhile_dropWhile]

theorem stripList_stripList (l : List Char) :
    EmailReaderApp.stripList (EmailReaderApp.stripList l)
      = EmailReaderApp.stripList l := by
  unfold EmailReaderApp.stripList
  rw [dropWhile_rstripList (dropWhile_dropWhile EmailReaderApp.pyIsSpace l),
    rstripList_rstripList]

theorem mem_stripList {c : Char} {l : List Char}
    (h : c ∈ EmailReaderApp.stripList l) : c ∈ l := by
  unfold EmailReaderApp.stripList EmailReaderApp.rstripList at h
  rw [List.mem_reverse] at h
  have h2 := mem_dropWhile h
  rw [List.mem_reverse] at h2
  exact mem_dropWhile h2

theorem sanitize_data_keep (name : String) {c : Char}
    (h : c ∈ (EmailReaderApp._sanitize_filename name).data) :
    EmailReaderApp.keepChar c = true := by
  unfold EmailReaderApp._sanitize_filename at h
  by_cases he : ((EmailReaderApp.stripList (name.data.filter EmailReaderApp.keepChar)).isEmpty : Prop)
  · rw [if_pos he] at h
    have hall : ∀ d ∈ "attachment".data, EmailReaderApp.keepChar d = true := by decide
    exact hall c h
  · rw [if_neg he] at h
    have h2 : c ∈ name.data.filter EmailReaderApp.keepChar := mem_stripList h
    exact (List.mem_filter.mp h2).2

theorem sanitize_of_filter_nil (name : String)
    (h : name.data.filter EmailReaderApp.keepChar = []) :
    EmailReaderApp._sanitize_filename name = "attachment" := by
  unfold EmailReaderApp._sanitize_filename
  rw [h]
  rfl

/-! ### Claim theorems about `_sanitize_filename` -/

/-- C5: the sanitizer's output never contains any of the nine illegal
characters; if filtering the illegal characters out of the input leaves
nothing, the output is `"attachment"`; in particular an input made of
illegal characters only sanitizes to `"attachment"`, and the spec's
concrete example sanitizes to `"abcdefghij"`. -/
theorem C5_sanitize_removes_illegal (name : String) :
    (EmailReaderApp.illegalFilenameChars.all
        (fun c => !(EmailReaderApp._sanitize_filename name).data.contains c)) = true
    ∧ (name.data.filter EmailReaderApp.keepChar = [] →
        EmailReaderApp._sanitize_filename name = "attachment")
    ∧ ((∀ c ∈ name.data, EmailReaderApp.illegalFilenameChars.contains c = true) →
        EmailReaderApp._sanitize_filename name = "attachment")
    ∧ EmailReaderApp._sanitize_filename "a/b\\c:d*e?f\"g<h>i|j" = "abcdefghij" := by
  refine ⟨?_, sanitize_of_filter_nil name, ?_, by decide⟩
  · rw [List.all_eq_true]
    intro c hc
    rw [Bool.not_eq_true']
    by_cases hmem : c ∈ (EmailReaderApp._sanitize_filename name).data
    · exfalso
      have hk := sanitize_data_keep name hmem
      unfold EmailReaderApp.keepChar at hk
      rw [Bool.not_eq_true'] at hk
      have hnm : c ∉ EmailReaderApp.illegalFilenameChars := by simpa using hk
      exact hnm hc
    · simpa using hmem
  · intro hall
    apply sanitize_of_filter_nil
    rw [List.filter_eq_nil_iff]
    intro c hc
    unfold EmailReaderApp.keepChar
    rw [hall c hc]
    decide

/-- Witness for C5 at concrete inputs: an all-illegal name sanitizes to
`"attachment"`, and the spec's example sanitizes to `"abcdefghij"`. -/
theorem C5_sanitize_removes_illegal_witness :
    EmailReaderApp._sanitize_filename ":*?|" = "attachment"
    ∧ EmailReaderApp._sanitize_filename "a/b\\c:d*e?f\"g<h>i|j" = "abcdefghij" :=
  ⟨(C5_sanitize_removes_illegal ":*?|").2.2.1 (by decide),
   (C5_sanitize_removes_illegal "x").2.2.2⟩

/-- C10: the sanitizer is idempotent, and its output is always
non-empty, contains no illegal filename character, and carries no
leading or trailing whitespace (it is a fixed point of `strip`). -/
theorem C10_sanitize_idempotent (name : String) :
    EmailReaderApp._sanitize_filename (EmailReaderApp._sanitize_filename name)
      = EmailReaderApp._sanitize_filename name
    ∧ 0 < (EmailReaderApp._sanitize_filename name).length
    ∧ (EmailReaderApp._sanitize_filename name).data.all EmailReaderApp.keepChar = true
    ∧ EmailReaderApp.stripList (EmailReaderApp._sanitize_filename name).data
        = (EmailReaderApp._sanitize_filename name).data := by
  have hall : (EmailReaderApp._sanitize_filename name).data.all EmailReaderApp.keepChar
      = true := by
    rw [List.all_eq_true]
    intro c hc
    exact sanitize_data_keep name hc
  by_cases he : ((EmailReaderApp.stripList (name.data.filter EmailReaderApp.keepChar)).isEmpty : Prop)
  · have hs : EmailReaderApp._sanitize_filename name = "attachment" := by
      unfold EmailReaderApp._sanitize_filename
      rw [if_pos he]
    rw [hs]
    exact ⟨by decide, by decide, by decide, by decide⟩
  · have hs : EmailReaderApp._sanitize_filename name
        = String.mk (EmailReaderApp.stripList (name.data.filter EmailReaderApp.keepChar)) := by
      unfold EmailReaderApp._sanitize_filename
      rw [if_neg he]
    set stripped := EmailReaderApp.stripList (name.data.filter EmailReaderApp.keepChar) with hst
    have hdata : (EmailReaderApp._sanitize_filename name).data = stripped := by rw [hs]
    have hfix : EmailReaderApp.stripList stripped = stripped := by
      rw [hst]
      exact stripList_stripList _
    have hfilter : stripped.filter EmailReaderApp.keepChar = stripped := by
      rw [List.filter_eq_self]
      intro c hc
      apply sanitize_data_keep name
      rw [hdata]
      exact hc
    refine ⟨?_, ?_, hall, ?_⟩
    · conv_lhs => rw [hs]
      unfold EmailReaderApp._sanitize_filename
      simp only
      rw [hfilter, hfix, if_neg (by simpa using he)]
    · rw [hs]
      have hne : stripped ≠ [] := by simpa [List.isEmpty_iff] using he
      cases hstr : stripped with
      | nil => exact absurd hstr hne
      | cons a t => simp [String.length, hstr]
    · rw [hdata, hfix]

/-! ### Helper lemmas about the Python-dict model -/

theorem dictFind_cons (q : String × String) (rest : List (String × String)) (k : String) :
    dictFind (q :: rest) k = if q.1 = k then some q.2 else dictFind rest k := by
  by_cases h : q.1 = k <;> simp [dictFind, List.find?_cons, h]

theorem dictFind_dictInsert (kv : String × String) (k : String) :
    ∀ d : List (String × String),
    dictFind (dictInsert d kv) k = if kv.1 = k then some kv.2 else dictFind d k
  | [] => by
    by_cases h : kv.1 = k <;> simp [dictInsert, dictFind_cons, dictFind, h]
  | q :: rest => by
    by_cases hq : q.1 = kv.1
    · rw [dictInsert, if_pos hq, dictFind_cons, dictFind_cons]
      by_cases hk : kv.1 = k
      · rw [if_pos (hq.trans hk), if_pos hk]
      · have hqk : ¬ q.1 = k := fun hh => hk (hq.symm.trans hh)
        rw [if_neg hqk, if_neg hk, if_neg hqk]
    · rw [dictInsert, if_neg hq, dictFind_cons, dictFind_cons,
        dictFind_dictInsert kv k rest]
      by_cases hqk : q.1 = k
      · have hk : ¬ kv.1 = k := fun hh => hq (hqk.trans hh.symm)
        rw [if_pos hqk, if_neg hk, if_pos hqk]
      · rw [if_neg hqk, if_neg hqk]

theorem dictInsert_keys (kv : String × String) : ∀ d : List (String × String),
    (dictInsert d kv).map Prod.fst
      = if d.any (fun p => decide (p.1 = kv.1)) then d.map Prod.fst
        else d.map Prod.fst ++ [kv.1]
  | [] => by simp [dictInsert]
  | q :: rest => by
    by_cases hq : q.1 = kv.1
    · simp [dictInsert, hq]
    · by_cases hr : rest.any (fun p => decide (p.1 = kv.1)) <;>
        simp [dictInsert, hq, hr, dictInsert_keys kv rest]

theorem dictInsert_keys_nodup {d : List (String × String)} (kv : String × String)
    (hd : (d.map Prod.fst).Nodup) : ((dictInsert d kv).map Prod.fst).Nodup := by
  rw [dictInsert_keys]
  by_cases h : d.any (fun p => decide (p.1 = kv.1))
  · simpa [h] using hd
  · rw [if_neg h]
    have hnm : kv.1 ∉ d.map Prod.fst := by
      intro hmem
      obtain ⟨p, hp, hfst⟩ := List.mem_map.mp hmem
      apply h
      rw [List.any_eq_true]
      exact ⟨p, hp, by simp [hfst]⟩
    rw [List.nodup_append]
    refine ⟨hd, List.nodup_singleton _, fun a ha hb => ?_⟩
    rw [List.mem_singleton] at hb
    subst hb
    exact hnm ha

theorem dictInsert_keys_mem (kv : String × String) (k : String)
    (d : List (String × String)) :
    k ∈ (dictInsert d kv).map Prod.fst ↔ (k ∈ d.map Prod.fst ∨ k = kv.1) := by
  rw [dictInsert_keys]
  by_cases h : d.any (fun p => decide (p.1 = kv.1))
  · rw [if_pos h]
    constructor
    · exact Or.inl
    · rintro (hk | hk)
      · exact hk
      · subst hk
        rw [List.any_eq_true] at h
        obtain ⟨p, hp, hpk⟩ := h
        simp only [decide_eq_true_eq] at hpk
        exact List.mem_map.mpr ⟨p, hp, hpk⟩
  · rw [if_neg h]
    simp

theorem dictFind_foldl (k : String) : ∀ (items acc : List (String × String)),
    dictFind (items.foldl dictInsert acc) k
      = match lastValue k items with
        | some v => some v
        | none => dictFind acc k
  | [], acc => by simp [lastValue]
  | kv :: rest, acc => by
    rw [List.foldl_cons, dictFind_foldl k rest]
    cases hl : lastValue k rest with
    | some v => simp [lastValue, hl]
    | none =>
      rw [dictFind_dictInsert]
      by_cases h : kv.1 = k <;> simp [lastValue, hl, h]

theorem dictOfItems_keys_nodup (items : List (String × String)) :
    ((dictOfItems items).map Prod.fst).Nodup := by
  have main : ∀ (its acc : List (String × String)), (acc.map Prod.fst).Nodup →
      ((its.foldl dictInsert acc).map Prod.fst).Nodup := by
    intro its
    induction its with
    | nil => intro acc h; simpa using h
    | cons kv rest ih =>
      intro acc h
      rw [List.foldl_cons]
      exact ih _ (dictInsert_keys_nodup kv h)
  exact main items [] (by simp)

theorem dictOfItems_keys_mem (k : String) (items : List (String × String)) :
    k ∈ (dictOfItems items).map Prod.fst ↔ ∃ p ∈ items, p.1 = k := by
  have main : ∀ (its acc : List (String × String)),
      k ∈ (its.foldl dictInsert acc).map Prod.fst
        ↔ (k ∈ acc.map Prod.fst ∨ ∃ p ∈ its, p.1 = k) := by
    intro its
    induction its with
    | nil => intro acc; simp
    | cons kv rest ih =>
      intro acc
      rw [List.foldl_cons, ih, dictInsert_keys_mem]
      constructor
      · rintro ((h | h) | h)
        · exact Or.inl h
        · exact Or.inr ⟨kv, List.mem_cons_self kv rest, h.symm⟩
        · obtain ⟨p, hp, hpk⟩ := h
          exact Or.inr ⟨p, List.mem_cons_of_mem kv hp, hpk⟩
      · rintro (h | ⟨p, hp, hpk⟩)
        · exact Or.inl (Or.inl h)
        · rcases List.mem_cons.mp hp with hpe | hpm
          · subst hpe
            exact Or.inl (Or.inr hpk.symm)
          · exact Or.inr ⟨p, hpm, hpk⟩
  have h2 := main items []
  simpa using h2

theorem parse_eml_headers (m : EmlMessage) : (parse_eml m).headers = dictOfItems m.items := by
  rcases m with ⟨items, content⟩
  cases content with
  | multipart parts => rfl
  | single ctype c =>
    simp only [parse_eml]
    split_ifs <;> rfl

/-! ### Claim theorem about duplicate headers -/

/-- C9: when an `.eml` message carries two or more header fields with
the same name, the headers dict built by `parse_eml` holds that name
exactly once, bound to the value of the last occurrence in file order. -/
theorem C9_duplicate_headers_last_wins (m : EmlMessage) (k : String)
    (hdup : 2 ≤ m.items.countP (fun p => decide (p.1 = k))) :
    ((parse_eml m).headers.map Prod.fst).count k = 1
    ∧ dictFind (parse_eml m).headers k = lastValue k m.items := by
  rw [parse_eml_headers]
  constructor
  · have hmem : k ∈ (dictOfItems m.items).map Prod.fst := by
      rw [dictOfItems_keys_mem]
      have hpos : 0 < m.items.countP (fun p => decide (p.1 = k)) := by omega
      rw [List.countP_pos_iff] at hpos
      obtain ⟨p, hp, hpk⟩ := hpos
      exact ⟨p, hp, by simpa using hpk⟩
    exact List.count_eq_one_of_mem (dictOfItems_keys_nodup m.items) hmem
  · rw [dictOfItems, dictFind_foldl k m.items []]
    cases hl : lastValue k m.items <;> simp [dictFind]

/-- Witness for C9: a message with two `Received` headers keeps the name
once, bound to the later value. -/
theorem C9_duplicate_headers_last_wins_witness :
    ((parse_eml ⟨[("Received", "a"), ("Received", "b")], .multipart []⟩).headers.map
        Prod.fst).count "Received" = 1
    ∧ dictFind (parse_eml ⟨[("Received", "a"), ("Received", "b")], .multipart []⟩).headers
        "Received" = lastValue "Received" [("Received", "a"), ("Received", "b")] :=
  C9_duplicate_headers_last_wins ⟨[("Received", "a"), ("Received", "b")], .multipart []⟩
    "Received" (by decide)

end EmailReader
